import Mathlib

/-!
Verification of the dual-backend job queue of the email-module repository.

The embedding below translates, state by state and operation by operation:
- `MemoryQueueService` (src/services/memory-queue.service.ts) — the local
  in-process backend: five job lists, a monotone job-id counter, a 1 s
  processing loop with a concurrency ceiling of 3, per-job retry timers.
- `RedisQueueService` (src/services/redis-queue.service.ts) — the persistent
  backend: Redis lists for waiting/active/completed/failed, a sorted set for
  delayed jobs, the same retry/backoff policy.
- `QueueService` (src/services/queue.service.ts) — the coordinator: health
  probe (`testRedisConnection`), recovery guard (`checkRedisRecovery`) and
  the migration protocol (`performRecovery`).

JavaScript `x || d` on optional numeric fields is modelled by `jsOrNat`
(`none` and `0` both fall back to the default, as JS falsiness dictates).
Timestamps and delays are naturals (milliseconds). Job payloads are opaque.
-/

namespace EmailQueue

/-- The `QueueJob` record (queue-job.interface.ts / redis-queue.service.ts). -/
structure QueueJob where
  id : String
  name : String
  payload : Nat
  optsAttempts : Option Nat
  optsDelay : Option Nat
  timestamp : Nat
  attempts : Nat
  failedReason : Option String
deriving Repr, DecidableEq

/-- JS `x || d` for an optional numeric option field: both `undefined` and `0`
are falsy and fall back to the default. -/
def jsOrNat (o : Option Nat) (d : Nat) : Nat :=
  match o with
  | none => d
  | some n => if n = 0 then d else n

/-- `job.opts?.attempts || 3` — the max-attempts bound used by both failure
handlers. -/
def maxAttemptsOf (j : QueueJob) : Nat := jsOrNat j.optsAttempts 3

/-- `job.opts?.delay || 0`. -/
def delayOptOf (j : QueueJob) : Nat := jsOrNat j.optsDelay 0

/-- The in-place mutation `job.attempts++; job.failedReason = error.message`
performed at the top of both failure handlers. -/
def bumpJob (j : QueueJob) (msg : String) : QueueJob :=
  { j with attempts := j.attempts + 1, failedReason := some msg }

/-- Options object passed to `add` (the fields the queue core reads). -/
structure AddOpts where
  delay : Option Nat
  attempts : Option Nat
deriving Repr, DecidableEq

/-- Exponential backoff of `MemoryQueueService.handleJobFailure`:
`Math.min(1000 * Math.pow(2, job.attempts), 30000)`. -/
def memRetryDelay (n : Nat) : Nat := min (1000 * 2 ^ n) 30000

/-- Exponential backoff of `RedisQueueService.handleJobFailure`:
`Math.min(1000 * Math.pow(2, job.attempts), 30000)`. -/
def redisRetryDelay (n : Nat) : Nat := min (1000 * 2 ^ n) 30000

/-! ## Local backend: MemoryQueueService -/

/-- The five job collections (`queues`) plus `jobIdCounter` of
`MemoryQueueService`. -/
structure MemoryQueueState where
  waiting : List QueueJob
  active : List QueueJob
  completed : List QueueJob
  failed : List QueueJob
  delayed : List QueueJob
  jobIdCounter : Nat
deriving Repr, DecidableEq

/-- Constructor state: all collections empty, `jobIdCounter = 1`. -/
def memInit : MemoryQueueState :=
  { waiting := [], active := [], completed := [], failed := [], delayed := [],
    jobIdCounter := 1 }

/-- A pending `setTimeout` created by `add` for a delayed job: at `dueTime`
it runs `moveFromDelayedToWaiting jobId`. -/
structure DelayTimer where
  dueTime : Nat
  jobId : String
deriving Repr, DecidableEq

/-- `findIndex`-then-`splice(i, 1)`: remove the first job with the given id. -/
def removeFirstById : List QueueJob → String → List QueueJob
  | [], _ => []
  | j :: rest, i => if j.id = i then rest else j :: removeFirstById rest i

/-- `MemoryQueueService.add`: build the job with the current counter as id,
bump the counter, then file the job under `delayed` (with a promotion timer)
when `opts.delay && opts.delay > 0`, else under `waiting`. -/
def MemoryQueueService.add (st : MemoryQueueState) (jobName : String)
    (payload : Nat) (opts : AddOpts) (now : Nat) :
    QueueJob × MemoryQueueState × Option DelayTimer :=
  let job : QueueJob :=
    { id := Nat.repr st.jobIdCounter, name := jobName, payload := payload,
      optsAttempts := opts.attempts, optsDelay := opts.delay,
      timestamp := now, attempts := 0, failedReason := none }
  let st1 := { st with jobIdCounter := st.jobIdCounter + 1 }
  if 0 < jsOrNat opts.delay 0 then
    (job, { st1 with delayed := st1.delayed ++ [job] },
      some { dueTime := now + jsOrNat opts.delay 0, jobId := job.id })
  else
    (job, { st1 with waiting := st1.waiting ++ [job] }, none)

/-- `MemoryQueueService.processNextJob` (the 1 s tick): return unchanged when
`waiting` is empty or `active.length >= 3`; otherwise shift the head of
`waiting` and push it onto `active`. -/
def MemoryQueueService.processNextJob (st : MemoryQueueState) :
    MemoryQueueState :=
  match st.waiting with
  | [] => st
  | job :: rest =>
    if st.active.length ≥ 3 then st
    else { st with waiting := rest, active := st.active ++ [job] }

/-- `MemoryQueueService.moveToCompleted`: splice the job out of `active`,
push it onto `completed`, and `shift()` the oldest entry past the 100 cap. -/
def MemoryQueueService.moveToCompleted (st : MemoryQueueState)
    (job : QueueJob) : MemoryQueueState :=
  let active := removeFirstById st.active job.id
  let completed := st.completed ++ [job]
  let completed := if completed.length > 100 then completed.tail else completed
  { st with active := active, completed := completed }

/-- `MemoryQueueService.handleJobFailure`: increment `attempts`, record the
reason, splice the job out of `active`; if `attempts < maxAttempts` schedule a
retry timer (`some (backoffDelay, job)`) that will push the job back to
`waiting` when it fires, else append to the capped `failed` list. -/
def MemoryQueueService.handleJobFailure (st : MemoryQueueState)
    (job : QueueJob) (msg : String) :
    MemoryQueueState × Option (Nat × QueueJob) :=
  let job := bumpJob job msg
  let active := removeFirstById st.active job.id
  if job.attempts < maxAttemptsOf job then
    ({ st with active := active }, some (memRetryDelay job.attempts, job))
  else
    let failed := st.failed ++ [job]
    let failed := if failed.length > 50 then failed.tail else failed
    ({ st with active := active, failed := failed }, none)

/-- The retry `setTimeout` callback in `handleJobFailure` firing:
`this.queues.waiting.push(job)`. -/
def MemoryQueueService.retryTimerFire (st : MemoryQueueState)
    (job : QueueJob) : MemoryQueueState :=
  { st with waiting := st.waiting ++ [job] }

/-- `MemoryQueueService.moveFromDelayedToWaiting`: if a job with the id is in
`delayed`, splice it out and push it onto `waiting`. -/
def MemoryQueueService.moveFromDelayedToWaiting (st : MemoryQueueState)
    (jobId : String) : MemoryQueueState :=
  match st.delayed.find? (fun j => j.id = jobId) with
  | none => st
  | some job =>
    { st with delayed := removeFirstById st.delayed jobId,
              waiting := st.waiting ++ [job] }

/-! ## Persistent backend: RedisQueueService -/

/-- The Redis keys of `RedisQueueService`: lists `email:waiting`,
`email:active`, `email:completed`, `email:failed` (head = most recently
LPUSHed) and the sorted set `email:delayed` of (score, member) pairs kept in
ascending score order, plus the service's own `jobIdCounter`. -/
structure RedisQueueState where
  waiting : List QueueJob
  active : List QueueJob
  completed : List QueueJob
  failed : List QueueJob
  delayed : List (Nat × QueueJob)
  jobIdCounter : Nat
deriving Repr, DecidableEq

/-- Fresh `RedisQueueService`: empty keys, `jobIdCounter = 1`. -/
def redisInit : RedisQueueState :=
  { waiting := [], active := [], completed := [], failed := [], delayed := [],
    jobIdCounter := 1 }

/-- Score-ordered insertion into the sorted-set representation. -/
def insertSorted (p : Nat × QueueJob) :
    List (Nat × QueueJob) → List (Nat × QueueJob)
  | [] => [p]
  | q :: qs => if p.1 < q.1 then p :: q :: qs else q :: insertSorted p qs

/-- ZADD: a sorted set holds each member once; re-adding replaces the score.
The member is the serialized job, so equality is structural job equality. -/
def zadd (score : Nat) (j : QueueJob) (l : List (Nat × QueueJob)) :
    List (Nat × QueueJob) :=
  insertSorted (score, j) (l.filter (fun q => q.2 ≠ j))

/-- ZREM by member. -/
def zrem (j : QueueJob) (l : List (Nat × QueueJob)) : List (Nat × QueueJob) :=
  l.filter (fun q => q.2 ≠ j)

/-- LREM with count 1: drop the first occurrence (matching the serialized
job content, not the id — as the source does). -/
def lremOne : List QueueJob → QueueJob → List QueueJob
  | [], _ => []
  | x :: rest, j => if x = j then rest else x :: lremOne rest j

/-- `RedisQueueService.add`: counter id; `opts.delay && opts.delay > 0` sends
the job to the delayed sorted set with score `Date.now() + opts.delay`,
otherwise LPUSH onto `email:waiting`. -/
def RedisQueueService.add (st : RedisQueueState) (jobName : String)
    (payload : Nat) (opts : AddOpts) (now : Nat) :
    QueueJob × RedisQueueState :=
  let job : QueueJob :=
    { id := Nat.repr st.jobIdCounter, name := jobName, payload := payload,
      optsAttempts := opts.attempts, optsDelay := opts.delay,
      timestamp := now, attempts := 0, failedReason := none }
  let st1 := { st with jobIdCounter := st.jobIdCounter + 1 }
  if 0 < jsOrNat opts.delay 0 then
    (job, { st1 with delayed := zadd (now + jsOrNat opts.delay 0) job st1.delayed })
  else
    (job, { st1 with waiting := job :: st1.waiting })

/-- The loop body of `processDelayedJobs`: for each fetched member, LPUSH it
onto `email:waiting` and ZREM it from `email:delayed`. -/
def promoteJobs : List (Nat × QueueJob) → RedisQueueState → RedisQueueState
  | [], st => st
  | p :: ps, st =>
    promoteJobs ps
      { st with waiting := p.2 :: st.waiting, delayed := zrem p.2 st.delayed }

/-- `RedisQueueService.processDelayedJobs` (5 s tick):
`ZRANGEBYSCORE email:delayed -inf now LIMIT 0 10` — the at most 10 smallest
scores not exceeding `now` — then promote each to `email:waiting`. -/
def RedisQueueService.processDelayedJobs (st : RedisQueueState) (now : Nat) :
    RedisQueueState :=
  promoteJobs ((st.delayed.filter (fun p => p.1 ≤ now)).take 10) st

/-- One iteration of the `processWaitingJobs` loop: when
`LLEN email:active >= 3` the loop only sleeps; otherwise
`BRPOPLPUSH email:waiting email:active` pops the tail of `waiting` onto the
head of `active`. -/
def RedisQueueService.processWaitingStep (st : RedisQueueState) :
    RedisQueueState :=
  if st.active.length ≥ 3 then st
  else
    match st.waiting.getLast? with
    | none => st
    | some job =>
      { st with waiting := st.waiting.dropLast, active := job :: st.active }

/-- `RedisQueueService.moveJobToCompleted`: LREM from `email:active`, LPUSH
onto `email:completed`, `LTRIM email:completed 0 99`. -/
def RedisQueueService.moveJobToCompleted (st : RedisQueueState)
    (job : QueueJob) : RedisQueueState :=
  { st with active := lremOne st.active job,
            completed := (job :: st.completed).take 100 }

/-- `RedisQueueService.handleJobFailure`: mutate the job
(`attempts++`, `failedReason`), LREM the pre-increment serialization from
`email:active`; if `attempts < maxAttempts` ZADD into `email:delayed` at
`Date.now() + backoff`, else LPUSH onto `email:failed` and
`LTRIM email:failed 0 49`. -/
def RedisQueueService.handleJobFailure (st : RedisQueueState)
    (job : QueueJob) (msg : String) (now : Nat) : RedisQueueState :=
  let job := bumpJob job msg
  let active := lremOne st.active { job with attempts := job.attempts - 1 }
  if job.attempts < maxAttemptsOf job then
    { st with active := active,
              delayed := zadd (now + redisRetryDelay job.attempts) job st.delayed }
  else
    { st with active := active, failed := (job :: st.failed).take 50 }

/-! ## Coordinator: QueueService (health probe and recovery) -/

/-- Commands a probe can issue against Redis. `write` stands for any
state-mutating confirmation command (SET/LPUSH/...). -/
inductive RedisCommand where
  | ping
  | write
deriving Repr, DecidableEq

/-- Environment of one `testRedisConnection` call: whether the `PING` round
trip succeeds and how long it takes (ms). -/
structure ProbeConn where
  pingOk : Bool
  pingMillis : Nat
deriving Repr, DecidableEq

/-- The commands `testRedisConnection` issues: a single `redis.ping()` raced
against a 4000 ms timer, then a disconnect. No write is ever performed. -/
def QueueService.testRedisCommands : List RedisCommand := [RedisCommand.ping]

/-- `QueueService.testRedisConnection`: true exactly when the PING settles
successfully before the 4000 ms race timer; every error path returns false. -/
def QueueService.testRedisConnection (c : ProbeConn) : Bool :=
  c.pingOk && decide (c.pingMillis < 4000)

/-- Jobs re-submitted during recovery go to the BullMQ queue via
`this.queue.add(name, data, { ...opts, attempts, delay, jobId })`; this record
keeps the fields `performRecovery` sets. -/
structure BullJob where
  jobId : String
  name : String
  payload : Nat
  optsAttempts : Nat
  optsDelay : Nat
deriving Repr, DecidableEq

/-- The persistent BullMQ queue as recovery observes it: an `add` with
`delay > 0` lands in the delayed set, `delay = 0` in waiting. -/
structure BullQueueState where
  waiting : List BullJob
  delayed : List BullJob
deriving Repr, DecidableEq

/-- Empty BullMQ queue. -/
def bullInit : BullQueueState := { waiting := [], delayed := [] }

/-- BullMQ `queue.add` job placement by delay option. -/
def bullAdd (st : BullQueueState) (j : BullJob) : BullQueueState :=
  if 0 < j.optsDelay then { st with delayed := st.delayed ++ [j] }
  else { st with waiting := st.waiting ++ [j] }

/-- Re-submission options for a snapshotted waiting job:
original `maxAttempts` (`job.opts?.attempts || 3`), `delay: 0`,
`jobId: job.id`. -/
def recoverWaitingOpts (j : QueueJob) : BullJob :=
  { jobId := j.id, name := j.name, payload := j.payload,
    optsAttempts := jsOrNat j.optsAttempts 3, optsDelay := 0 }

/-- Re-submission options for a snapshotted active job:
`Math.max((job.opts?.attempts || 3) - job.attempts, 1)` remaining attempts,
`delay: 1000`, suffixed id. -/
def recoverActiveOpts (j : QueueJob) : BullJob :=
  { jobId := j.id ++ "-recovered", name := j.name, payload := j.payload,
    optsAttempts := max (jsOrNat j.optsAttempts 3 - j.attempts) 1,
    optsDelay := 1000 }

/-- Re-submission options for a snapshotted delayed job: remaining delay
`Math.max((job.timestamp + (job.opts?.delay || 0)) - Date.now(), 0)`,
suffixed id. -/
def recoverDelayedOpts (now : Nat) (j : QueueJob) : BullJob :=
  { jobId := j.id ++ "-delayed", name := j.name, payload := j.payload,
    optsAttempts := jsOrNat j.optsAttempts 3,
    optsDelay := ((j.timestamp + jsOrNat j.optsDelay 0 : Int) - now).toNat }

/-- The full ordered list of re-submissions `performRecovery` attempts:
all waiting jobs, then all active jobs, then all delayed jobs. -/
def recoverySubmissions (now : Nat) (m : MemoryQueueState) : List BullJob :=
  m.waiting.map recoverWaitingOpts ++ m.active.map recoverActiveOpts
    ++ m.delayed.map (recoverDelayedOpts now)

/-- The three re-submission for-loops of `performRecovery`: each `queue.add`
is attempted in order; one that fails (`submitOk` false) is caught, logged
and skipped, and the loop continues with the next job. -/
def attemptSubmissions (submitOk : String → Bool) (l : List BullJob)
    (b : BullQueueState) : BullQueueState :=
  l.foldl (fun b j => if submitOk j.jobId then bullAdd b j else b) b

/-- Coordinator state: the active-backend flag `isRedisAvailable`, the
recovery bookkeeping (`pendingRecovery`, `recoveryAttempts`), the local
backend state and the persistent queue contents. -/
structure QueueServiceState where
  isRedisAvailable : Bool
  pendingRecovery : Bool
  recoveryAttempts : Nat
  memory : MemoryQueueState
  bull : BullQueueState
deriving Repr, DecidableEq

/-- Total of the snapshot taken in step 1 of recovery. -/
def localJobCount (m : MemoryQueueState) : Nat :=
  m.waiting.length + m.active.length + m.delayed.length

/-- `QueueService.performRecovery`. Parameters beyond the state: `now`
(`Date.now()` during the run), `initOk` (whether `initializeRedisQueue`
succeeds — its failure is the unexpected-error path caught by the outer
`catch`), and `submitOk` (which per-job `queue.add` calls succeed; a failing
one is caught per-job and only logged). Faithful shape: entry guard on
`pendingRecovery`; `recoveryAttempts++`; snapshot; empty snapshot switches
backends without touching the queue contents; otherwise every submission is
attempted in order; the catch path resets `isRedisAvailable` and drops the
partially initialized connections; the `finally` clears `pendingRecovery`.
The local backend's collections are never modified. -/
def QueueService.performRecovery (st : QueueServiceState) (now : Nat)
    (initOk : Bool) (submitOk : String → Bool) : QueueServiceState :=
  if st.pendingRecovery then st
  else
    let st := { st with pendingRecovery := true,
                        recoveryAttempts := st.recoveryAttempts + 1 }
    let st1 :=
      if localJobCount st.memory = 0 then
        if initOk then { st with isRedisAvailable := true }
        else { st with isRedisAvailable := false }
      else if initOk then
        let bull := attemptSubmissions submitOk
          (recoverySubmissions now st.memory) st.bull
        { st with bull := bull, isRedisAvailable := true }
      else { st with isRedisAvailable := false }
    { st1 with pendingRecovery := false }

/-- `QueueService.checkRedisRecovery`: runs only while on the local backend
with no recovery in flight and a configured Redis URL; recovery starts only
when the probe reports success and `recoveryAttempts < MAX_RECOVERY_ATTEMPTS`
(10). -/
def QueueService.checkRedisRecovery (st : QueueServiceState)
    (hasRedisUrl : Bool) (probe : ProbeConn) (now : Nat) (initOk : Bool)
    (submitOk : String → Bool) : QueueServiceState :=
  if st.isRedisAvailable || st.pendingRecovery then st
  else if !hasRedisUrl then st
  else if QueueService.testRedisConnection probe && decide (st.recoveryAttempts < 10) then
    QueueService.performRecovery st now initOk submitOk
  else st

/-! ## Decimal job-id strings are injective

Both backends mint ids with `(this.jobIdCounter++).toString()`, embedded as
`Nat.repr`. Distinct counter values give distinct id strings; the round trip
below establishes that. -/

/-- Fuel irrelevance: with enough fuel, `toDigitsCore` prepends the digits of
`n` to the accumulator. -/
theorem toDigitsCore_eq_toDigits (n : Nat) : ∀ (fuel : Nat) (ds : List Char),
    n < fuel → Nat.toDigitsCore 10 fuel n ds = Nat.toDigits 10 n ++ ds := by
  induction n using Nat.strong_induction_on with
  | _ n ih =>
    intro fuel ds hfuel
    match fuel with
    | 0 => exact absurd hfuel (by omega)
    | f + 1 =>
      by_cases h10 : n / 10 = 0
      · simp only [Nat.toDigits, Nat.toDigitsCore, h10, if_pos rfl]
        rfl
      · have hn : 0 < n := by
          rcases Nat.eq_zero_or_pos n with h | h
          · exact absurd (by simp [h]) h10
          · exact h
        have hdiv : n / 10 < n := Nat.div_lt_self hn (by omega)
        have hfd : n / 10 < f := by
          have : n ≤ f := by omega
          omega
        simp only [Nat.toDigits, Nat.toDigitsCore, h10, if_neg h10]
        rw [ih (n / 10) hdiv f (Nat.digitChar (n % 10) :: ds) hfd]
        rw [ih (n / 10) hdiv n [Nat.digitChar (n % 10)] hdiv]
        simp [List.append_assoc]

/-- For `n < 10` the digit list is a single digit character. -/
theorem toDigits_lt_ten (n : Nat) (h : n < 10) :
    Nat.toDigits 10 n = [Nat.digitChar n] := by
  have h10 : n / 10 = 0 := Nat.div_eq_of_lt h
  simp [Nat.toDigits, Nat.toDigitsCore, h10, Nat.mod_eq_of_lt h]

/-- For `10 ≤ n` the digit list splits off the last digit. -/
theorem toDigits_ge_ten (n : Nat) (h : 10 ≤ n) :
    Nat.toDigits 10 n = Nat.toDigits 10 (n / 10) ++ [Nat.digitChar (n % 10)] := by
  have h10 : n / 10 ≠ 0 := by
    have : 1 ≤ n / 10 := (Nat.one_le_div_iff (by omega)).mpr h
    omega
  have hdiv : n / 10 < n := Nat.div_lt_self (by omega) (by omega)
  conv_lhs => rw [Nat.toDigits]
  simp only [Nat.toDigitsCore, if_neg h10]
  exact toDigitsCore_eq_toDigits (n / 10) n [Nat.digitChar (n % 10)] hdiv

/-- Numeric value of a decimal digit character (left inverse of
`Nat.digitChar` below 10). -/
def charVal (c : Char) : Nat :=
  if c = '0' then 0 else
  if c = '1' then 1 else
  if c = '2' then 2 else
  if c = '3' then 3 else
  if c = '4' then 4 else
  if c = '5' then 5 else
  if c = '6' then 6 else
  if c = '7' then 7 else
  if c = '8' then 8 else
  if c = '9' then 9 else 10

/-- Value of a digit string, most significant first. -/
def decimalValue (l : List Char) : Nat :=
  l.foldl (fun a c => 10 * a + charVal c) 0

theorem charVal_digitChar (d : Nat) (h : d < 10) :
    charVal (Nat.digitChar d) = d := by
  interval_cases d <;> rfl

theorem decimalValue_append (l : List Char) (c : Char) :
    decimalValue (l ++ [c]) = 10 * decimalValue l + charVal c := by
  have : ∀ (a : Nat), List.foldl (fun a c => 10 * a + charVal c) a (l ++ [c])
      = 10 * List.foldl (fun a c => 10 * a + charVal c) a l + charVal c := by
    intro a
    rw [List.foldl_append]
    rfl
  exact this 0

/-- Round trip: evaluating the decimal digits of `n` returns `n`. -/
theorem decimalValue_toDigits (n : Nat) :
    decimalValue (Nat.toDigits 10 n) = n := by
  induction n using Nat.strong_induction_on with
  | _ n ih =>
    by_cases h : n < 10
    · rw [toDigits_lt_ten n h]
      show 10 * 0 + charVal (Nat.digitChar n) = n
      rw [charVal_digitChar n h]
      omega
    · have h' : 10 ≤ n := by omega
      have hdiv : n / 10 < n := Nat.div_lt_self (by omega) (by omega)
      rw [toDigits_ge_ten n h', decimalValue_append, ih (n / 10) hdiv,
        charVal_digitChar (n % 10) (Nat.mod_lt n (by omega))]
      omega

/-- `Nat.repr` is injective: distinct counters mint distinct id strings. -/
theorem natRepr_injective : Function.Injective Nat.repr := by
  intro m n h
  have hlist : Nat.toDigits 10 m = Nat.toDigits 10 n := by
    have h' : (Nat.toDigits 10 m).asString = (Nat.toDigits 10 n).asString := h
    have h'' := congrArg String.data h'
    simpa [List.asString] using h''
  have := congrArg decimalValue hlist
  rwa [decimalValue_toDigits, decimalValue_toDigits] at this

/-! ## Event traces over each backend

The three concurrent loops of the source (dequeue tick, delayed promotion,
processor outcome signals) are interleaved as an arbitrary event list applied
to the constructor state. -/

/-- Events that mutate `MemoryQueueService` state. -/
inductive MemEvent where
  | add (jobName : String) (payload : Nat) (opts : AddOpts) (now : Nat)
  | tick
  | complete (job : QueueJob)
  | fail (job : QueueJob) (msg : String)
  | promote (jobId : String)
  | retryFire (job : QueueJob)
deriving Repr

/-- One memory-backend transition. -/
def memStep (st : MemoryQueueState) : MemEvent → MemoryQueueState
  | .add nm p o t => (MemoryQueueService.add st nm p o t).2.1
  | .tick => MemoryQueueService.processNextJob st
  | .complete j => MemoryQueueService.moveToCompleted st j
  | .fail j m => (MemoryQueueService.handleJobFailure st j m).1
  | .promote i => MemoryQueueService.moveFromDelayedToWaiting st i
  | .retryFire j => MemoryQueueService.retryTimerFire st j

/-- Memory-backend state after a trace from the constructor state. -/
def memRun (evs : List MemEvent) : MemoryQueueState := evs.foldl memStep memInit

/-- Events that mutate `RedisQueueService` state. -/
inductive RedisEvent where
  | add (jobName : String) (payload : Nat) (opts : AddOpts) (now : Nat)
  | dequeue
  | delayedTick (now : Nat)
  | complete (job : QueueJob)
  | fail (job : QueueJob) (msg : String) (now : Nat)
deriving Repr

/-- One redis-backend transition. -/
def redisStep (st : RedisQueueState) : RedisEvent → RedisQueueState
  | .add nm p o t => (RedisQueueService.add st nm p o t).2
  | .dequeue => RedisQueueService.processWaitingStep st
  | .delayedTick t => RedisQueueService.processDelayedJobs st t
  | .complete j => RedisQueueService.moveJobToCompleted st j
  | .fail j m t => RedisQueueService.handleJobFailure st j m t

/-- Redis-backend state after a trace from the fresh-service state. -/
def redisRun (evs : List RedisEvent) : RedisQueueState :=
  evs.foldl redisStep redisInit

/-- Ids handed out by the `add` events of a memory-backend trace, in order. -/
def memCreatedIdsFrom (st : MemoryQueueState) : List MemEvent → List String
  | [] => []
  | e :: evs =>
    match e with
    | .add .. => Nat.repr st.jobIdCounter :: memCreatedIdsFrom (memStep st e) evs
    | _ => memCreatedIdsFrom (memStep st e) evs

/-- Ids handed out by the `add` events of a whole memory trace. -/
def memCreatedIds (evs : List MemEvent) : List String :=
  memCreatedIdsFrom memInit evs

/-- Ids handed out by the `add` events of a redis-backend trace, in order. -/
def redisCreatedIdsFrom (st : RedisQueueState) : List RedisEvent → List String
  | [] => []
  | e :: evs =>
    match e with
    | .add .. => Nat.repr st.jobIdCounter :: redisCreatedIdsFrom (redisStep st e) evs
    | _ => redisCreatedIdsFrom (redisStep st e) evs

/-- Ids handed out by the `add` events of a whole redis trace. -/
def redisCreatedIds (evs : List RedisEvent) : List String :=
  redisCreatedIdsFrom redisInit evs

/-! ## Occurrence counting -/

/-- Number of jobs with a given id in a list. -/
def countId (l : List QueueJob) (i : String) : Nat :=
  (l.filter (fun j => j.id = i)).length

/-- Number of occurrences of a job id across the five collections of the
local backend. -/
def memOccurrences (st : MemoryQueueState) (i : String) : Nat :=
  countId st.waiting i + countId st.active i + countId st.completed i +
    countId st.failed i + countId st.delayed i

/-! ## Helper lemmas -/

theorem bumpJob_id (j : QueueJob) (m : String) : (bumpJob j m).id = j.id := rfl

theorem bumpJob_attempts (j : QueueJob) (m : String) :
    (bumpJob j m).attempts = j.attempts + 1 := rfl

theorem maxAttemptsOf_bumpJob (j : QueueJob) (m : String) :
    maxAttemptsOf (bumpJob j m) = maxAttemptsOf j := rfl

theorem removeFirstById_length_le (l : List QueueJob) (i : String) :
    (removeFirstById l i).length ≤ l.length := by
  induction l with
  | nil => simp [removeFirstById]
  | cons j rest ih =>
    simp only [removeFirstById]
    split
    · simp
    · simpa using Nat.succ_le_succ ih

theorem lremOne_length_le (l : List QueueJob) (j : QueueJob) :
    (lremOne l j).length ≤ l.length := by
  induction l with
  | nil => simp [lremOne]
  | cons x rest ih =>
    simp only [lremOne]
    split
    · simp
    · simpa using Nat.succ_le_succ ih

theorem countId_nil (i : String) : countId [] i = 0 := rfl

theorem countId_append (l1 l2 : List QueueJob) (i : String) :
    countId (l1 ++ l2) i = countId l1 i + countId l2 i := by
  simp [countId, List.filter_append]

theorem countId_cons (j : QueueJob) (l : List QueueJob) (i : String) :
    countId (j :: l) i = (if j.id = i then 1 else 0) + countId l i := by
  by_cases h : j.id = i <;> simp [countId, List.filter_cons, h] <;> omega

theorem countId_removeFirstById (l : List QueueJob) (i : String) :
    countId (removeFirstById l i) i = countId l i - 1 := by
  induction l with
  | nil => rfl
  | cons j rest ih =>
    simp only [removeFirstById]
    by_cases h : j.id = i
    · rw [if_pos h, countId_cons, if_pos h]
      omega
    · rw [if_neg h, countId_cons, if_neg h, ih, countId_cons, if_neg h]
      omega

theorem countId_tail_le (l : List QueueJob) (i : String) :
    countId l.tail i ≤ countId l i := by
  cases l with
  | nil => simp
  | cons j rest =>
    simp only [List.tail_cons, countId_cons]
    omega

theorem mem_insertSorted_self (p : Nat × QueueJob)
    (l : List (Nat × QueueJob)) : p ∈ insertSorted p l := by
  induction l with
  | nil => simp [insertSorted]
  | cons q qs ih =>
    simp only [insertSorted]
    split
    · exact List.mem_cons_self p (q :: qs)
    · exact List.mem_cons_of_mem q ih

theorem mem_zadd_self (s : Nat) (j : QueueJob) (l : List (Nat × QueueJob)) :
    (s, j) ∈ zadd s j l :=
  mem_insertSorted_self (s, j) (l.filter (fun q => q.2 ≠ j))

theorem promoteJobs_active (l : List (Nat × QueueJob))
    (st : RedisQueueState) : (promoteJobs l st).active = st.active := by
  induction l generalizing st with
  | nil => rfl
  | cons p ps ih => simpa [promoteJobs] using ih _

theorem mem_promoteJobs_waiting (l : List (Nat × QueueJob))
    (st : RedisQueueState) (j : QueueJob)
    (h : j ∈ (promoteJobs l st).waiting) :
    j ∈ st.waiting ∨ ∃ s, (s, j) ∈ l := by
  induction l generalizing st with
  | nil => exact Or.inl h
  | cons p ps ih =>
    rcases ih _ h with hw | ⟨s, hs⟩
    · rcases List.mem_cons.mp hw with h1 | h2
      · exact Or.inr ⟨p.1, by simp [h1]⟩
      · exact Or.inl h2
    · exact Or.inr ⟨s, List.mem_cons_of_mem _ hs⟩

theorem bullAdd_waiting_mono (b : BullQueueState) (x j : BullJob)
    (h : j ∈ b.waiting) : j ∈ (bullAdd b x).waiting := by
  unfold bullAdd
  split
  · exact h
  · exact List.mem_append_left _ h

theorem bullAdd_delayed_mono (b : BullQueueState) (x j : BullJob)
    (h : j ∈ b.delayed) : j ∈ (bullAdd b x).delayed := by
  unfold bullAdd
  split
  · exact List.mem_append_left _ h
  · exact h

theorem attemptSubmissions_waiting_mono (ok : String → Bool)
    (l : List BullJob) (b : BullQueueState) (j : BullJob)
    (h : j ∈ b.waiting) : j ∈ (attemptSubmissions ok l b).waiting := by
  induction l generalizing b with
  | nil => exact h
  | cons x xs ih =>
    simp only [attemptSubmissions, List.foldl_cons]
    by_cases hx : ok x.jobId
    · exact ih _ (by simpa [hx] using bullAdd_waiting_mono b x j h)
    · simpa [hx] using ih b h

theorem attemptSubmissions_delayed_mono (ok : String → Bool)
    (l : List BullJob) (b : BullQueueState) (j : BullJob)
    (h : j ∈ b.delayed) : j ∈ (attemptSubmissions ok l b).delayed := by
  induction l generalizing b with
  | nil => exact h
  | cons x xs ih =>
    simp only [attemptSubmissions, List.foldl_cons]
    by_cases hx : ok x.jobId
    · exact ih _ (by simpa [hx] using bullAdd_delayed_mono b x j h)
    · simpa [hx] using ih b h

theorem attemptSubmissions_mem_waiting (ok : String → Bool)
    (l : List BullJob) (b : BullQueueState) (j : BullJob)
    (hj : j ∈ l) (hok : ok j.jobId = true) (hd : j.optsDelay = 0) :
    j ∈ (attemptSubmissions ok l b).waiting := by
  induction l generalizing b with
  | nil => cases hj
  | cons x xs ih =>
    simp only [attemptSubmissions, List.foldl_cons]
    rcases List.mem_cons.mp hj with rfl | hmem
    · rw [hok]
      exact attemptSubmissions_waiting_mono ok xs _ j
        (by simp [bullAdd, hd])
    · split
      · exact ih _ hmem
      · exact ih _ hmem

theorem attemptSubmissions_mem_delayed (ok : String → Bool)
    (l : List BullJob) (b : BullQueueState) (j : BullJob)
    (hj : j ∈ l) (hok : ok j.jobId = true) (hd : 0 < j.optsDelay) :
    j ∈ (attemptSubmissions ok l b).delayed := by
  induction l generalizing b with
  | nil => cases hj
  | cons x xs ih =>
    simp only [attemptSubmissions, List.foldl_cons]
    rcases List.mem_cons.mp hj with rfl | hmem
    · rw [hok]
      exact attemptSubmissions_delayed_mono ok xs _ j
        (by simp [bullAdd, hd])
    · split
      · exact ih _ hmem
      · exact ih _ hmem

theorem memAdd_active (st : MemoryQueueState) (nm : String) (p : Nat)
    (o : AddOpts) (t : Nat) :
    ((MemoryQueueService.add st nm p o t).2.1).active = st.active := by
  unfold MemoryQueueService.add
  split <;> rfl

theorem memAdd_counter (st : MemoryQueueState) (nm : String) (p : Nat)
    (o : AddOpts) (t : Nat) :
    ((MemoryQueueService.add st nm p o t).2.1).jobIdCounter =
      st.jobIdCounter + 1 := by
  unfold MemoryQueueService.add
  split <;> rfl

theorem memAdd_id (st : MemoryQueueState) (nm : String) (p : Nat)
    (o : AddOpts) (t : Nat) :
    ((MemoryQueueService.add st nm p o t).1).id = Nat.repr st.jobIdCounter := by
  unfold MemoryQueueService.add
  split <;> rfl

theorem processNextJob_counter (st : MemoryQueueState) :
    (MemoryQueueService.processNextJob st).jobIdCounter = st.jobIdCounter := by
  unfold MemoryQueueService.processNextJob
  split
  · rfl
  · split <;> rfl

theorem moveToCompleted_counter (st : MemoryQueueState) (j : QueueJob) :
    (MemoryQueueService.moveToCompleted st j).jobIdCounter =
      st.jobIdCounter := rfl

theorem handleJobFailure_counter (st : MemoryQueueState) (j : QueueJob)
    (m : String) :
    ((MemoryQueueService.handleJobFailure st j m).1).jobIdCounter =
      st.jobIdCounter := by
  unfold MemoryQueueService.handleJobFailure
  dsimp only
  split <;> rfl

theorem moveFromDelayedToWaiting_counter (st : MemoryQueueState)
    (i : String) :
    (MemoryQueueService.moveFromDelayedToWaiting st i).jobIdCounter =
      st.jobIdCounter := by
  unfold MemoryQueueService.moveFromDelayedToWaiting
  split <;> rfl

theorem memStep_counter_le (st : MemoryQueueState) (e : MemEvent) :
    st.jobIdCounter ≤ (memStep st e).jobIdCounter := by
  cases e with
  | add nm p o t =>
    have := memAdd_counter st nm p o t
    simp only [memStep]
    omega
  | tick => simp [memStep, processNextJob_counter]
  | complete j => simp [memStep, moveToCompleted_counter]
  | fail j m => simp [memStep, handleJobFailure_counter]
  | promote i => simp [memStep, moveFromDelayedToWaiting_counter]
  | retryFire j => simp [memStep, MemoryQueueService.retryTimerFire]

theorem redisAdd_active (st : RedisQueueState) (nm : String) (p : Nat)
    (o : AddOpts) (t : Nat) :
    ((RedisQueueService.add st nm p o t).2).active = st.active := by
  unfold RedisQueueService.add
  split <;> rfl

theorem redisAdd_counter (st : RedisQueueState) (nm : String) (p : Nat)
    (o : AddOpts) (t : Nat) :
    ((RedisQueueService.add st nm p o t).2).jobIdCounter =
      st.jobIdCounter + 1 := by
  unfold RedisQueueService.add
  split <;> rfl

theorem redisAdd_id (st : RedisQueueState) (nm : String) (p : Nat)
    (o : AddOpts) (t : Nat) :
    ((RedisQueueService.add st nm p o t).1).id = Nat.repr st.jobIdCounter := by
  unfold RedisQueueService.add
  split <;> rfl

theorem processWaitingStep_counter (st : RedisQueueState) :
    (RedisQueueService.processWaitingStep st).jobIdCounter =
      st.jobIdCounter := by
  unfold RedisQueueService.processWaitingStep
  split
  · rfl
  · split <;> rfl

theorem promoteJobs_counter (l : List (Nat × QueueJob))
    (st : RedisQueueState) : (promoteJobs l st).jobIdCounter =
      st.jobIdCounter := by
  induction l generalizing st with
  | nil => rfl
  | cons p ps ih => simpa [promoteJobs] using ih _

theorem redisHandleJobFailure_counter (st : RedisQueueState) (j : QueueJob)
    (m : String) (t : Nat) :
    (RedisQueueService.handleJobFailure st j m t).jobIdCounter =
      st.jobIdCounter := by
  unfold RedisQueueService.handleJobFailure
  dsimp only
  split <;> rfl

theorem redisStep_counter_le (st : RedisQueueState) (e : RedisEvent) :
    st.jobIdCounter ≤ (redisStep st e).jobIdCounter := by
  cases e with
  | add nm p o t =>
    have := redisAdd_counter st nm p o t
    simp only [redisStep]
    omega
  | dequeue => simp [redisStep, processWaitingStep_counter]
  | delayedTick t =>
    simp [redisStep, RedisQueueService.processDelayedJobs, promoteJobs_counter]
  | complete j => simp [redisStep, RedisQueueService.moveJobToCompleted]
  | fail j m t => simp [redisStep, redisHandleJobFailure_counter]

theorem memCreatedIdsFrom_bound (evs : List MemEvent) :
    ∀ (st : MemoryQueueState) (x : String), x ∈ memCreatedIdsFrom st evs →
      ∃ k, st.jobIdCounter ≤ k ∧ x = Nat.repr k := by
  induction evs with
  | nil =>
    intro st x h
    cases h
  | cons e evs ih =>
    intro st x h
    have hstep : ∀ hm : x ∈ memCreatedIdsFrom (memStep st e) evs,
        ∃ k, st.jobIdCounter ≤ k ∧ x = Nat.repr k := by
      intro hm
      obtain ⟨k, hk, hx⟩ := ih _ _ hm
      exact ⟨k, le_trans (memStep_counter_le st e) hk, hx⟩
    cases e with
    | add nm p o t =>
      simp only [memCreatedIdsFrom] at h
      rcases List.mem_cons.mp h with rfl | hmem
      · exact ⟨st.jobIdCounter, le_refl _, rfl⟩
      · exact hstep hmem
    | tick => exact hstep h
    | complete j => exact hstep h
    | fail j m => exact hstep h
    | promote i => exact hstep h
    | retryFire j => exact hstep h

theorem memCreatedIdsFrom_nodup (evs : List MemEvent) :
    ∀ st : MemoryQueueState, (memCreatedIdsFrom st evs).Nodup := by
  induction evs with
  | nil =>
    intro st
    simp [memCreatedIdsFrom]
  | cons e evs ih =>
    intro st
    cases e with
    | add nm p o t =>
      simp only [memCreatedIdsFrom]
      refine List.nodup_cons.mpr ⟨?_, ih _⟩
      intro hmem
      obtain ⟨k, hk, hx⟩ := memCreatedIdsFrom_bound evs _ _ hmem
      have hkk : st.jobIdCounter = k := natRepr_injective hx
      have hc := memAdd_counter st nm p o t
      simp only [memStep] at hk
      omega
    | tick => exact ih _
    | complete j => exact ih _
    | fail j m => exact ih _
    | promote i => exact ih _
    | retryFire j => exact ih _

theorem redisCreatedIdsFrom_bound (evs : List RedisEvent) :
    ∀ (st : RedisQueueState) (x : String), x ∈ redisCreatedIdsFrom st evs →
      ∃ k, st.jobIdCounter ≤ k ∧ x = Nat.repr k := by
  induction evs with
  | nil =>
    intro st x h
    cases h
  | cons e evs ih =>
    intro st x h
    have hstep : ∀ hm : x ∈ redisCreatedIdsFrom (redisStep st e) evs,
        ∃ k, st.jobIdCounter ≤ k ∧ x = Nat.repr k := by
      intro hm
      obtain ⟨k, hk, hx⟩ := ih _ _ hm
      exact ⟨k, le_trans (redisStep_counter_le st e) hk, hx⟩
    cases e with
    | add nm p o t =>
      simp only [redisCreatedIdsFrom] at h
      rcases List.mem_cons.mp h with rfl | hmem
      · exact ⟨st.jobIdCounter, le_refl _, rfl⟩
      · exact hstep hmem
    | dequeue => exact hstep h
    | delayedTick t => exact hstep h
    | complete j => exact hstep h
    | fail j m t => exact hstep h

theorem redisCreatedIdsFrom_nodup (evs : List RedisEvent) :
    ∀ st : RedisQueueState, (redisCreatedIdsFrom st evs).Nodup := by
  induction evs with
  | nil =>
    intro st
    simp [redisCreatedIdsFrom]
  | cons e evs ih =>
    intro st
    cases e with
    | add nm p o t =>
      simp only [redisCreatedIdsFrom]
      refine List.nodup_cons.mpr ⟨?_, ih _⟩
      intro hmem
      obtain ⟨k, hk, hx⟩ := redisCreatedIdsFrom_bound evs _ _ hmem
      have hkk : st.jobIdCounter = k := natRepr_injective hx
      have hc := redisAdd_counter st nm p o t
      simp only [redisStep] at hk
      omega
    | dequeue => exact ih _
    | delayedTick t => exact ih _
    | complete j => exact ih _
    | fail j m t => exact ih _

theorem processNextJob_active_le (st : MemoryQueueState)
    (h : st.active.length ≤ 3) :
    (MemoryQueueService.processNextJob st).active.length ≤ 3 := by
  unfold MemoryQueueService.processNextJob
  split
  · exact h
  · by_cases hfull : st.active.length ≥ 3
    · rw [if_pos hfull]
      exact h
    · rw [if_neg hfull]
      simp only [List.length_append, List.length_cons, List.length_nil]
      omega

theorem memStep_active_le (st : MemoryQueueState) (e : MemEvent)
    (h : st.active.length ≤ 3) : (memStep st e).active.length ≤ 3 := by
  cases e with
  | add nm p o t =>
    show ((MemoryQueueService.add st nm p o t).2.1).active.length ≤ 3
    rw [memAdd_active]
    exact h
  | tick => exact processNextJob_active_le st h
  | complete j =>
    show (MemoryQueueService.moveToCompleted st j).active.length ≤ 3
    unfold MemoryQueueService.moveToCompleted
    dsimp only
    exact le_trans (removeFirstById_length_le st.active j.id) h
  | fail j m =>
    show ((MemoryQueueService.handleJobFailure st j m).1).active.length ≤ 3
    unfold MemoryQueueService.handleJobFailure
    dsimp only
    split <;> exact le_trans (removeFirstById_length_le st.active _) h
  | promote i =>
    show (MemoryQueueService.moveFromDelayedToWaiting st i).active.length ≤ 3
    unfold MemoryQueueService.moveFromDelayedToWaiting
    split
    · exact h
    · exact h
  | retryFire j => exact h

theorem memRun_active_le_from (evs : List MemEvent) :
    ∀ st : MemoryQueueState, st.active.length ≤ 3 →
      (evs.foldl memStep st).active.length ≤ 3 := by
  induction evs with
  | nil =>
    intro st h
    exact h
  | cons e evs ih =>
    intro st h
    exact ih _ (memStep_active_le st e h)

theorem processWaitingStep_active_le (st : RedisQueueState)
    (h : st.active.length ≤ 3) :
    (RedisQueueService.processWaitingStep st).active.length ≤ 3 := by
  unfold RedisQueueService.processWaitingStep
  by_cases hfull : st.active.length ≥ 3
  · rw [if_pos hfull]
    exact h
  · rw [if_neg hfull]
    split
    · exact h
    · simp only [List.length_cons]
      omega

theorem redisStep_active_le (st : RedisQueueState) (e : RedisEvent)
    (h : st.active.length ≤ 3) : (redisStep st e).active.length ≤ 3 := by
  cases e with
  | add nm p o t =>
    show ((RedisQueueService.add st nm p o t).2).active.length ≤ 3
    rw [redisAdd_active]
    exact h
  | dequeue => exact processWaitingStep_active_le st h
  | delayedTick t =>
    show (RedisQueueService.processDelayedJobs st t).active.length ≤ 3
    unfold RedisQueueService.processDelayedJobs
    rw [promoteJobs_active]
    exact h
  | complete j =>
    show (RedisQueueService.moveJobToCompleted st j).active.length ≤ 3
    unfold RedisQueueService.moveJobToCompleted
    dsimp only
    exact le_trans (lremOne_length_le st.active j) h
  | fail j m t =>
    show (RedisQueueService.handleJobFailure st j m t).active.length ≤ 3
    unfold RedisQueueService.handleJobFailure
    dsimp only
    split <;> exact le_trans (lremOne_length_le st.active _) h

theorem redisRun_active_le_from (evs : List RedisEvent) :
    ∀ st : RedisQueueState, st.active.length ≤ 3 →
      (evs.foldl redisStep st).active.length ≤ 3 := by
  induction evs with
  | nil =>
    intro st h
    exact h
  | cons e evs ih =>
    intro st h
    exact ih _ (redisStep_active_le st e h)

/-! ## Claim theorems -/

/-- C5: at every observable instant of every trace from the initial state,
neither backend's active collection exceeds the concurrency ceiling of 3,
and the dequeue step of either backend is the identity (moves nothing from
waiting to active) whenever the active count is not strictly below 3. -/
theorem activeBoundedByThree :
    (∀ evs : List MemEvent, (memRun evs).active.length ≤ 3) ∧
    (∀ evs : List RedisEvent, (redisRun evs).active.length ≤ 3) ∧
    (∀ st : MemoryQueueState, 3 ≤ st.active.length →
      MemoryQueueService.processNextJob st = st) ∧
    (∀ st : RedisQueueState, 3 ≤ st.active.length →
      RedisQueueService.processWaitingStep st = st) := by
  refine ⟨?_, ?_, ?_, ?_⟩
  · intro evs
    exact memRun_active_le_from evs memInit (by simp [memInit])
  · intro evs
    exact redisRun_active_le_from evs redisInit (by simp [redisInit])
  · intro st h
    unfold MemoryQueueService.processNextJob
    split
    · rfl
    · rw [if_pos (by omega)]
  · intro st h
    unfold RedisQueueService.processWaitingStep
    rw [if_pos (by omega)]

/-- A fresh job with a given id (shape produced by the backends' `add`). -/
def mkJob (i : String) : QueueJob :=
  { id := i, name := "send-email", payload := 0, optsAttempts := none,
    optsDelay := none, timestamp := 0, attempts := 0, failedReason := none }

/-- A local-backend state whose active collection is already at the ceiling. -/
def memFullState : MemoryQueueState :=
  { waiting := [mkJob "4"],
    active := [mkJob "1", mkJob "2", mkJob "3"],
    completed := [], failed := [], delayed := [], jobIdCounter := 5 }

theorem activeBoundedByThree_witness :
    3 ≤ memFullState.active.length ∧
    MemoryQueueService.processNextJob memFullState = memFullState :=
  ⟨by decide, activeBoundedByThree.2.2.1 memFullState (by decide)⟩

/-- C10: job ids come from a per-backend-instance integer counter starting
at 1 in both backends; each add mints the decimal string of the current
counter and increments the counter; the ids created within one backend
instance never repeat, while the two backends mint identical ids for their
n-th jobs (here both first jobs get "1"), so ids can coincide across
backends; recovery re-submits a snapshotted waiting job under its unchanged
local id, and active and delayed jobs under ids with an appended suffix. -/
theorem jobIdAssignment :
    memInit.jobIdCounter = 1 ∧ redisInit.jobIdCounter = 1 ∧
    (∀ (st : MemoryQueueState) (nm : String) (p : Nat) (o : AddOpts) (t : Nat),
      (MemoryQueueService.add st nm p o t).1.id = Nat.repr st.jobIdCounter ∧
      ((MemoryQueueService.add st nm p o t).2.1).jobIdCounter =
        st.jobIdCounter + 1) ∧
    (∀ (st : RedisQueueState) (nm : String) (p : Nat) (o : AddOpts) (t : Nat),
      (RedisQueueService.add st nm p o t).1.id = Nat.repr st.jobIdCounter ∧
      ((RedisQueueService.add st nm p o t).2).jobIdCounter =
        st.jobIdCounter + 1) ∧
    (∀ evs : List MemEvent, (memCreatedIds evs).Nodup) ∧
    (∀ evs : List RedisEvent, (redisCreatedIds evs).Nodup) ∧
    (MemoryQueueService.add memInit "send-email" 0 ⟨none, none⟩ 0).1.id =
      (RedisQueueService.add redisInit "send-email" 1 ⟨none, none⟩ 9).1.id ∧
    (∀ j : QueueJob, (recoverWaitingOpts j).jobId = j.id) ∧
    (∀ j : QueueJob, (recoverActiveOpts j).jobId = j.id ++ "-recovered") ∧
    (∀ (t : Nat) (j : QueueJob),
      (recoverDelayedOpts t j).jobId = j.id ++ "-delayed") := by
  refine ⟨rfl, rfl, ?_, ?_, ?_, ?_, rfl, ?_, ?_, ?_⟩
  · intro st nm p o t
    exact ⟨memAdd_id st nm p o t, memAdd_counter st nm p o t⟩
  · intro st nm p o t
    exact ⟨redisAdd_id st nm p o t, redisAdd_counter st nm p o t⟩
  · intro evs
    exact memCreatedIdsFrom_nodup evs memInit
  · intro evs
    exact redisCreatedIdsFrom_nodup evs redisInit
  · intro j
    rfl
  · intro j
    rfl
  · intro t j
    rfl

theorem mem_append_trim (l : List QueueJob) (x : QueueJob) :
    x ∈ (if (l ++ [x]).length > 50 then (l ++ [x]).tail else l ++ [x]) := by
  split
  · rename_i h
    match l with
    | [] => simp at h
    | a :: t =>
      show x ∈ t ++ [x]
      exact List.mem_append_right t (List.mem_singleton_self x)
  · exact List.mem_append_right l (List.mem_singleton_self x)

/-- C2: in both backends the failure handler moves a job to the terminal
failed collection exactly when its incremented attempts counter reaches
`maxAttempts` (which is `job.opts?.attempts || 3`, hence 3 when the caller
supplies none); the job placed in failed carries
`attempts ≤ maxAttempts`, and a retrying failure leaves the failed
collection untouched. The hypothesis `attempts < maxAttempts` states that
the job had not already exhausted its budget before this failure. -/
theorem terminalFailureAtMaxAttempts :
    (∀ j : QueueJob, j.optsAttempts = none → maxAttemptsOf j = 3) ∧
    (∀ (st : MemoryQueueState) (j : QueueJob) (msg : String),
      j.attempts < maxAttemptsOf j →
      (((MemoryQueueService.handleJobFailure st j msg).2 = none) ↔
        j.attempts + 1 = maxAttemptsOf j) ∧
      ((MemoryQueueService.handleJobFailure st j msg).2 = none →
        bumpJob j msg ∈ (MemoryQueueService.handleJobFailure st j msg).1.failed ∧
        (bumpJob j msg).attempts ≤ maxAttemptsOf (bumpJob j msg)) ∧
      ((MemoryQueueService.handleJobFailure st j msg).2 ≠ none →
        (MemoryQueueService.handleJobFailure st j msg).1.failed = st.failed)) ∧
    (∀ (st : RedisQueueState) (j : QueueJob) (msg : String) (now : Nat),
      j.attempts < maxAttemptsOf j →
      (j.attempts + 1 = maxAttemptsOf j →
        bumpJob j msg ∈ (RedisQueueService.handleJobFailure st j msg now).failed ∧
        (bumpJob j msg).attempts ≤ maxAttemptsOf (bumpJob j msg)) ∧
      (j.attempts + 1 < maxAttemptsOf j →
        (RedisQueueService.handleJobFailure st j msg now).failed = st.failed)) := by
  refine ⟨?_, ?_, ?_⟩
  · intro j h
    simp [maxAttemptsOf, jsOrNat, h]
  · intro st j msg h
    have hba : (bumpJob j msg).attempts = j.attempts + 1 := rfl
    have hbm : maxAttemptsOf (bumpJob j msg) = maxAttemptsOf j := rfl
    by_cases hlt : j.attempts + 1 < maxAttemptsOf j
    · have hcond : (bumpJob j msg).attempts < maxAttemptsOf (bumpJob j msg) := by
        rw [hba, hbm]
        exact hlt
      unfold MemoryQueueService.handleJobFailure
      dsimp only
      rw [if_pos hcond]
      refine ⟨?_, ?_, ?_⟩
      · simp only [iff_iff_implies_and_implies]
        constructor
        · intro hc
          cases hc
        · intro hc
          omega
      · intro hc
        cases hc
      · intro _
        rfl
    · have heq : j.attempts + 1 = maxAttemptsOf j := by omega
      have hcond : ¬ (bumpJob j msg).attempts < maxAttemptsOf (bumpJob j msg) := by
        rw [hba, hbm]
        omega
      unfold MemoryQueueService.handleJobFailure
      dsimp only
      rw [if_neg hcond]
      refine ⟨?_, ?_, ?_⟩
      · simp [heq]
      · intro _
        exact ⟨mem_append_trim st.failed (bumpJob j msg), by rw [hba, hbm]; omega⟩
      · intro hc
        exact absurd rfl hc
  · intro st j msg now h
    have hba : (bumpJob j msg).attempts = j.attempts + 1 := rfl
    have hbm : maxAttemptsOf (bumpJob j msg) = maxAttemptsOf j := rfl
    constructor
    · intro heq
      have hcond : ¬ (bumpJob j msg).attempts < maxAttemptsOf (bumpJob j msg) := by
        rw [hba, hbm]
        omega
      unfold RedisQueueService.handleJobFailure
      dsimp only
      rw [if_neg hcond]
      refine ⟨?_, by rw [hba, hbm]; omega⟩
      show bumpJob j msg ∈ (bumpJob j msg :: st.failed).take 50
      have h50 : (50 : Nat) = 49 + 1 := rfl
      rw [h50, List.take_succ_cons]
      exact List.mem_cons_self _ _
    · intro hlt
      have hcond : (bumpJob j msg).attempts < maxAttemptsOf (bumpJob j msg) := by
        rw [hba, hbm]
        exact hlt
      unfold RedisQueueService.handleJobFailure
      dsimp only
      rw [if_pos hcond]

/-- A job that has already failed twice against the default budget of 3. -/
def twiceFailedJob : QueueJob :=
  { id := "1", name := "send-email", payload := 0, optsAttempts := none,
    optsDelay := none, timestamp := 0, attempts := 2, failedReason := none }

theorem terminalFailureAtMaxAttempts_witness :
    twiceFailedJob.attempts < maxAttemptsOf twiceFailedJob ∧
    (((MemoryQueueService.handleJobFailure memInit twiceFailedJob "smtp").2 = none) ↔
      twiceFailedJob.attempts + 1 = maxAttemptsOf twiceFailedJob) :=
  ⟨by decide,
    (terminalFailureAtMaxAttempts.2.1 memInit twiceFailedJob "smtp" (by decide)).1⟩

/-- C3: both backends compute the retry backoff for a failure with
post-increment attempt number n as min(1000·2^n, 30000); the memory handler
schedules exactly that timer and the redis handler inserts the job into the
delayed set due exactly that many ms from now. -/
theorem retryBackoffFormula :
    (∀ n : Nat, memRetryDelay n = min (1000 * 2 ^ n) 30000) ∧
    (∀ n : Nat, memRetryDelay n = redisRetryDelay n) ∧
    (∀ (st : MemoryQueueState) (j : QueueJob) (msg : String),
      j.attempts + 1 < maxAttemptsOf j →
      (MemoryQueueService.handleJobFailure st j msg).2 =
        some (min (1000 * 2 ^ (j.attempts + 1)) 30000, bumpJob j msg)) ∧
    (∀ (st : RedisQueueState) (j : QueueJob) (msg : String) (now : Nat),
      j.attempts + 1 < maxAttemptsOf j →
      (now + min (1000 * 2 ^ (j.attempts + 1)) 30000, bumpJob j msg) ∈
        (RedisQueueService.handleJobFailure st j msg now).delayed) := by
  refine ⟨fun n => rfl, fun n => rfl, ?_, ?_⟩
  · intro st j msg h
    have hcond : (bumpJob j msg).attempts < maxAttemptsOf (bumpJob j msg) := h
    unfold MemoryQueueService.handleJobFailure
    dsimp only
    rw [if_pos hcond]
    rfl
  · intro st j msg now h
    have hcond : (bumpJob j msg).attempts < maxAttemptsOf (bumpJob j msg) := h
    unfold RedisQueueService.handleJobFailure
    dsimp only
    rw [if_pos hcond]
    exact mem_zadd_self _ _ _

/-- A fresh job failing for the first time against the default budget. -/
def freshJob : QueueJob :=
  { id := "1", name := "send-email", payload := 0, optsAttempts := none,
    optsDelay := none, timestamp := 0, attempts := 0, failedReason := none }

theorem retryBackoffFormula_witness :
    freshJob.attempts + 1 < maxAttemptsOf freshJob ∧
    (MemoryQueueService.handleJobFailure memInit freshJob "smtp").2 =
      some (min (1000 * 2 ^ (freshJob.attempts + 1)) 30000, bumpJob freshJob "smtp") :=
  ⟨by decide, retryBackoffFormula.2.2.1 memInit freshJob "smtp" (by decide)⟩

/-- C6: an add with absent/zero delay puts the job into waiting at once
(delayed and the promotion timer untouched) in both backends; an add with
delay D > 0 puts the job into delayed at once, leaves waiting unchanged, and
the job can enter waiting only at or after enqueueTime + D — in the local
backend the promotion timer is due exactly at enqueueTime + D, and in the
persistent backend the promotion tick at time t only moves jobs whose
delayed score (enqueueTime + D) is at most t. -/
theorem enqueueDelayVisibility :
    (∀ (st : MemoryQueueState) (nm : String) (p : Nat) (o : AddOpts) (now : Nat),
      jsOrNat o.delay 0 = 0 →
      (MemoryQueueService.add st nm p o now).2.1.waiting =
        st.waiting ++ [(MemoryQueueService.add st nm p o now).1] ∧
      (MemoryQueueService.add st nm p o now).2.1.delayed = st.delayed ∧
      (MemoryQueueService.add st nm p o now).2.2 = none) ∧
    (∀ (st : MemoryQueueState) (nm : String) (p : Nat) (o : AddOpts) (now : Nat),
      0 < jsOrNat o.delay 0 →
      (MemoryQueueService.add st nm p o now).2.1.delayed =
        st.delayed ++ [(MemoryQueueService.add st nm p o now).1] ∧
      (MemoryQueueService.add st nm p o now).2.1.waiting = st.waiting ∧
      (MemoryQueueService.add st nm p o now).2.2 =
        some { dueTime := now + jsOrNat o.delay 0,
               jobId := (MemoryQueueService.add st nm p o now).1.id } ∧
      (MemoryQueueService.add st nm p o now).1.timestamp = now) ∧
    (∀ (st : RedisQueueState) (nm : String) (p : Nat) (o : AddOpts) (now : Nat),
      jsOrNat o.delay 0 = 0 →
      (RedisQueueService.add st nm p o now).2.waiting =
        (RedisQueueService.add st nm p o now).1 :: st.waiting ∧
      (RedisQueueService.add st nm p o now).2.delayed = st.delayed) ∧
    (∀ (st : RedisQueueState) (nm : String) (p : Nat) (o : AddOpts) (now : Nat),
      0 < jsOrNat o.delay 0 →
      (now + jsOrNat o.delay 0, (RedisQueueService.add st nm p o now).1) ∈
        (RedisQueueService.add st nm p o now).2.delayed ∧
      (RedisQueueService.add st nm p o now).2.waiting = st.waiting) ∧
    (∀ (st : RedisQueueState) (t : Nat) (j : QueueJob),
      j ∈ (RedisQueueService.processDelayedJobs st t).waiting →
      j ∈ st.waiting ∨ ∃ s, (s, j) ∈ st.delayed ∧ s ≤ t) := by
  refine ⟨?_, ?_, ?_, ?_, ?_⟩
  · intro st nm p o now h
    have hneg : ¬ 0 < jsOrNat o.delay 0 := by omega
    unfold MemoryQueueService.add
    dsimp only
    rw [if_neg hneg]
    exact ⟨rfl, rfl, rfl⟩
  · intro st nm p o now h
    unfold MemoryQueueService.add
    dsimp only
    rw [if_pos h]
    exact ⟨rfl, rfl, rfl, rfl⟩
  · intro st nm p o now h
    have hneg : ¬ 0 < jsOrNat o.delay 0 := by omega
    unfold RedisQueueService.add
    dsimp only
    rw [if_neg hneg]
    exact ⟨rfl, rfl⟩
  · intro st nm p o now h
    unfold RedisQueueService.add
    dsimp only
    rw [if_pos h]
    exact ⟨mem_zadd_self _ _ _, rfl⟩
  · intro st t j h
    unfold RedisQueueService.processDelayedJobs at h
    rcases mem_promoteJobs_waiting _ _ _ h with hw | ⟨s, hs⟩
    · exact Or.inl hw
    · have hs' := List.mem_of_mem_take hs
      have hsp := List.mem_filter.mp hs'
      refine Or.inr ⟨s, hsp.1, ?_⟩
      simpa using hsp.2

/-- Options asking for a 2000 ms delay. -/
def delayedOpts : AddOpts := { delay := some 2000, attempts := none }

theorem enqueueDelayVisibility_witness :
    0 < jsOrNat delayedOpts.delay 0 ∧
    (MemoryQueueService.add memInit "send-email" 0 delayedOpts 100).2.2 =
      some { dueTime := 100 + jsOrNat delayedOpts.delay 0,
             jobId := (MemoryQueueService.add memInit "send-email" 0 delayedOpts 100).1.id } :=
  ⟨by decide,
    (enqueueDelayVisibility.2.1 memInit "send-email" 0 delayedOpts 100 (by decide)).2.2.1⟩

theorem performRecovery_success (st : QueueServiceState) (now : Nat)
    (ok : String → Bool) (hp : st.pendingRecovery = false)
    (hn : 0 < localJobCount st.memory) :
    (QueueService.performRecovery st now true ok).bull =
      attemptSubmissions ok (recoverySubmissions now st.memory) st.bull ∧
    (QueueService.performRecovery st now true ok).memory = st.memory ∧
    (QueueService.performRecovery st now true ok).isRedisAvailable = true := by
  have hne : ¬ localJobCount st.memory = 0 := by omega
  unfold QueueService.performRecovery
  rw [hp]
  simp only [Bool.false_eq_true, if_false, hne]
  exact ⟨rfl, rfl, rfl⟩

/-- C7: during recovery every snapshotted local job is re-submitted with the
state-determined parameters — waiting jobs with delay 0, their original
`maxAttempts` budget and their unchanged id; active jobs with
`max(maxAttempts - attempts, 1)` remaining attempts and a 1000 ms delay;
delayed jobs with remaining delay `max((timestamp + delay) - now, 0)` — and
each job whose own submission succeeds lands in the persistent queue no
matter which other submissions fail; the list of attempted submissions
always covers the whole snapshot. -/
theorem recoveryResubmissionPolicy :
    ∀ (st : QueueServiceState) (now : Nat) (ok : String → Bool),
      st.pendingRecovery = false →
      0 < localJobCount st.memory →
      (∀ j ∈ st.memory.waiting, ok j.id = true →
        recoverWaitingOpts j ∈
          (QueueService.performRecovery st now true ok).bull.waiting ∧
        (recoverWaitingOpts j).optsDelay = 0 ∧
        (recoverWaitingOpts j).optsAttempts = jsOrNat j.optsAttempts 3 ∧
        (recoverWaitingOpts j).jobId = j.id) ∧
      (∀ j ∈ st.memory.active, ok (j.id ++ "-recovered") = true →
        recoverActiveOpts j ∈
          (QueueService.performRecovery st now true ok).bull.delayed ∧
        (recoverActiveOpts j).optsAttempts =
          max (jsOrNat j.optsAttempts 3 - j.attempts) 1 ∧
        (recoverActiveOpts j).optsDelay = 1000) ∧
      (∀ j ∈ st.memory.delayed, ok (j.id ++ "-delayed") = true →
        (recoverDelayedOpts now j).optsDelay =
          ((j.timestamp + jsOrNat j.optsDelay 0 : Int) - now).toNat ∧
        recoverDelayedOpts now j ∈
          (if 0 < (recoverDelayedOpts now j).optsDelay
            then (QueueService.performRecovery st now true ok).bull.delayed
            else (QueueService.performRecovery st now true ok).bull.waiting)) ∧
      (recoverySubmissions now st.memory).length = localJobCount st.memory := by
  intro st now ok hp hn
  obtain ⟨hbull, _, _⟩ := performRecovery_success st now ok hp hn
  refine ⟨?_, ?_, ?_, ?_⟩
  · intro j hj hok
    refine ⟨?_, rfl, rfl, rfl⟩
    rw [hbull]
    exact attemptSubmissions_mem_waiting ok _ st.bull _
      (List.mem_append_left _ (List.mem_append_left _
        (List.mem_map_of_mem recoverWaitingOpts hj))) hok rfl
  · intro j hj hok
    refine ⟨?_, rfl, rfl⟩
    rw [hbull]
    exact attemptSubmissions_mem_delayed ok _ st.bull _
      (List.mem_append_left _ (List.mem_append_right _
        (List.mem_map_of_mem recoverActiveOpts hj))) hok
      (show (0 : Nat) < 1000 by omega)
  · intro j hj hok
    refine ⟨rfl, ?_⟩
    have hmem : recoverDelayedOpts now j ∈ recoverySubmissions now st.memory :=
      List.mem_append_right _ (List.mem_map_of_mem (recoverDelayedOpts now) hj)
    by_cases hd : 0 < (recoverDelayedOpts now j).optsDelay
    · rw [if_pos hd, hbull]
      exact attemptSubmissions_mem_delayed ok _ st.bull _ hmem hok hd
    · rw [if_neg hd, hbull]
      exact attemptSubmissions_mem_waiting ok _ st.bull _ hmem hok (by omega)
  · simp only [recoverySubmissions, localJobCount, List.length_append,
      List.length_map]

/-- A job interrupted mid-processing (one attempt already made). -/
def activeJob2 : QueueJob :=
  { id := "2", name := "send-email", payload := 0, optsAttempts := none,
    optsDelay := none, timestamp := 0, attempts := 1, failedReason := none }

/-- A job scheduled 60 s out, enqueued at t = 40. -/
def delayedJob3 : QueueJob :=
  { id := "3", name := "send-email", payload := 0, optsAttempts := none,
    optsDelay := some 60000, timestamp := 40, attempts := 0,
    failedReason := none }

/-- A coordinator state on the local backend with one job in each of the
local waiting, active and delayed collections. -/
def coordMixed : QueueServiceState :=
  { isRedisAvailable := false, pendingRecovery := false, recoveryAttempts := 2,
    memory := { waiting := [mkJob "1"], active := [activeJob2],
                completed := [], failed := [], delayed := [delayedJob3],
                jobIdCounter := 4 },
    bull := bullInit }

theorem recoveryResubmissionPolicy_witness :
    coordMixed.pendingRecovery = false ∧ 0 < localJobCount coordMixed.memory ∧
    (mkJob "1" ∈ coordMixed.memory.waiting ∧
      (fun _ => true : String → Bool) (mkJob "1").id = true) ∧
    recoverWaitingOpts (mkJob "1") ∈
      (QueueService.performRecovery coordMixed 50 true (fun _ => true)).bull.waiting :=
  ⟨rfl, by decide, ⟨by decide, rfl⟩,
    ((recoveryResubmissionPolicy coordMixed 50 (fun _ => true) rfl (by decide)).1
      (mkJob "1") (by decide) rfl).1⟩

/-- C8: an unexpected error during a recovery attempt — the persistent-queue
initialization failing, which in the source happens before any job transfer
— aborts atomically: the persistent queue contents and the local backend
state are exactly what they were before the attempt, the local backend stays
active (`isRedisAvailable` is false), `pendingRecovery` is cleared by the
finally block, and `recoveryAttempts` is one greater than before, bounding
the next probe cycle. -/
theorem recoveryAbortAtomicity :
    ∀ (st : QueueServiceState) (now : Nat) (ok : String → Bool),
      st.pendingRecovery = false →
      (QueueService.performRecovery st now false ok).bull = st.bull ∧
      (QueueService.performRecovery st now false ok).memory = st.memory ∧
      (QueueService.performRecovery st now false ok).isRedisAvailable = false ∧
      (QueueService.performRecovery st now false ok).pendingRecovery = false ∧
      (QueueService.performRecovery st now false ok).recoveryAttempts =
        st.recoveryAttempts + 1 := by
  intro st now ok hp
  by_cases h0 : localJobCount st.memory = 0
  · simp [QueueService.performRecovery, hp, h0]
  · simp [QueueService.performRecovery, hp, h0]

theorem recoveryAbortAtomicity_witness :
    coordMixed.pendingRecovery = false ∧
    (QueueService.performRecovery coordMixed 50 false (fun _ => true)).bull =
      coordMixed.bull ∧
    (QueueService.performRecovery coordMixed 50 false (fun _ => true)).recoveryAttempts =
      coordMixed.recoveryAttempts + 1 := by
  have h := recoveryAbortAtomicity coordMixed 50 (fun _ => true) rfl
  exact ⟨rfl, h.1, h.2.2.2.2⟩

/-- The coordinator's startup state on the local backend. -/
def queueStart : QueueServiceState :=
  { isRedisAvailable := false, pendingRecovery := false, recoveryAttempts := 0,
    memory := memInit, bull := bullInit }

/-- C9 counterexample: a probe round in which only the PING succeeds — the
probe never issues a write command — already makes `testRedisConnection`
report the backend available, and `checkRedisRecovery` then starts a
recovery attempt (`recoveryAttempts` goes from 0 to 1): a ping success alone
does suffice. -/
theorem pingAloneReportsAvailable :
    QueueService.testRedisConnection { pingOk := true, pingMillis := 100 } = true ∧
    RedisCommand.write ∉ QueueService.testRedisCommands ∧
    (QueueService.checkRedisRecovery queueStart true
        { pingOk := true, pingMillis := 100 } 0 true
        (fun _ => true)).recoveryAttempts = 1 := by
  refine ⟨rfl, by decide, by decide⟩

/-- C9 amended: the health probe reports the persistent backend available
exactly when the single bounded-timeout PING round trip succeeds (settles
before the 4000 ms race timer); the probe issues no write command, so no
write confirmation is part of the availability check. -/
theorem probePingRoundTripOnly :
    (∀ c : ProbeConn, QueueService.testRedisConnection c = true ↔
      (c.pingOk = true ∧ c.pingMillis < 4000)) ∧
    RedisCommand.write ∉ QueueService.testRedisCommands := by
  constructor
  · intro c
    simp [QueueService.testRedisConnection]
  · decide

/-- The local backend after two plain enqueues: two jobs in waiting. -/
def memTwoWaiting : MemoryQueueState :=
  (MemoryQueueService.add
    (MemoryQueueService.add memInit "send-email" 0 ⟨none, none⟩ 0).2.1
    "send-email" 1 ⟨none, none⟩ 0).2.1

/-- Coordinator holding those two local jobs, persistent queue empty. -/
def coordTwoWaiting : QueueServiceState :=
  { isRedisAvailable := false, pendingRecovery := false, recoveryAttempts := 0,
    memory := memTwoWaiting, bull := bullInit }

/-- C1 (code bug): a fully successful recovery run — persistent backend
initialization and every per-job re-submission succeed — over a local
backend holding 2 waiting jobs copies both jobs into the persistent backend
(2 jobs across persistent waiting+active+delayed) and flips the backend
flag, but leaves the local backend untouched: local waiting still holds 2
jobs, not 0, because `performRecovery` never removes anything from the
memory queue. -/
theorem recoveryLeavesLocalPopulated :
    (QueueService.performRecovery coordTwoWaiting 5000 true
      (fun _ => true)).bull.waiting.length = 2 ∧
    (QueueService.performRecovery coordTwoWaiting 5000 true
      (fun _ => true)).bull.delayed.length = 0 ∧
    (QueueService.performRecovery coordTwoWaiting 5000 true
      (fun _ => true)).isRedisAvailable = true ∧
    (QueueService.performRecovery coordTwoWaiting 5000 true
      (fun _ => true)).memory.waiting.length = 2 := by
  decide

theorem countId_append_trim (l : List QueueJob) (x : QueueJob) (i : String)
    (hl : countId l i = 0) (hx : x.id = i) :
    countId (if (l ++ [x]).length > 50 then (l ++ [x]).tail else l ++ [x]) i
      = 1 := by
  have hx1 : countId [x] i = 1 := by simp [countId, hx]
  split
  · rename_i h
    match l with
    | [] => simp at h
    | a :: t =>
      show countId (t ++ [x]) i = 1
      rw [countId_append]
      have hct : countId (a :: t) i = 0 := hl
      rw [countId_cons] at hct
      omega
  · rw [countId_append]
    omega

/-- The memory backend after one enqueue plus one dequeue tick: the new job
sits alone in active. -/
def memOneActive : MemoryQueueState :=
  MemoryQueueService.processNextJob
    (MemoryQueueService.add memInit "send-email" 0 ⟨none, none⟩ 0).2.1

/-- C4 counterexample: enqueue one job on the local backend, dequeue it,
fail it once against the default budget of 3: the failure handler removes
it from active and parks it in a pending retry timer, so this enqueued,
unresolved job is in none of the five collections of either backend — not
in exactly one. -/
theorem retryWindowJobInNoCollection :
    memOccurrences
      (MemoryQueueService.handleJobFailure memOneActive
        (MemoryQueueService.add memInit "send-email" 0 ⟨none, none⟩ 0).1
        "smtp down").1 "1" = 0 ∧
    (MemoryQueueService.handleJobFailure memOneActive
      (MemoryQueueService.add memInit "send-email" 0 ⟨none, none⟩ 0).1
      "smtp down").2 ≠ none := by
  decide

/-- C4 amended: within each single backend a job occupies at most one
collection, but not always exactly one of exactly one backend: a retrying
failure in the local backend leaves the job in no collection until its
pending timer re-inserts it into exactly waiting; a terminal failure leaves
it exactly once, in failed; and recovery never removes jobs from the local
backend, so a job copied to the persistent backend resides in one
collection of each of the two backends simultaneously. -/
theorem jobResidenceAfterTransitions :
    (∀ (st : MemoryQueueState) (j : QueueJob) (msg : String),
      countId st.waiting j.id = 0 → countId st.active j.id = 1 →
      countId st.completed j.id = 0 → countId st.failed j.id = 0 →
      countId st.delayed j.id = 0 →
      j.attempts + 1 < maxAttemptsOf j →
      memOccurrences (MemoryQueueService.handleJobFailure st j msg).1 j.id = 0 ∧
      (MemoryQueueService.handleJobFailure st j msg).2 =
        some (memRetryDelay (j.attempts + 1), bumpJob j msg)) ∧
    (∀ (st : MemoryQueueState) (j : QueueJob),
      memOccurrences st j.id = 0 →
      memOccurrences (MemoryQueueService.retryTimerFire st j) j.id = 1) ∧
    (∀ (st : MemoryQueueState) (j : QueueJob) (msg : String),
      countId st.waiting j.id = 0 → countId st.active j.id = 1 →
      countId st.completed j.id = 0 → countId st.failed j.id = 0 →
      countId st.delayed j.id = 0 →
      j.attempts + 1 = maxAttemptsOf j →
      memOccurrences (MemoryQueueService.handleJobFailure st j msg).1 j.id = 1 ∧
      countId (MemoryQueueService.handleJobFailure st j msg).1.failed j.id = 1) ∧
    (∀ (st : QueueServiceState) (now : Nat) (initOk : Bool)
        (ok : String → Bool),
      (QueueService.performRecovery st now initOk ok).memory = st.memory) ∧
    (∀ (st : QueueServiceState) (now : Nat) (ok : String → Bool) (j : QueueJob),
      st.pendingRecovery = false → 0 < localJobCount st.memory →
      j ∈ st.memory.waiting → ok j.id = true →
      j ∈ (QueueService.performRecovery st now true ok).memory.waiting ∧
      recoverWaitingOpts j ∈
        (QueueService.performRecovery st now true ok).bull.waiting) := by
  refine ⟨?_, ?_, ?_, ?_, ?_⟩
  · intro st j msg hw ha hc hf hd h6
    have hcond : (bumpJob j msg).attempts < maxAttemptsOf (bumpJob j msg) := h6
    have hra := countId_removeFirstById st.active j.id
    unfold MemoryQueueService.handleJobFailure
    dsimp only
    rw [if_pos hcond]
    constructor
    · show countId st.waiting j.id +
        countId (removeFirstById st.active (bumpJob j msg).id) j.id +
        countId st.completed j.id + countId st.failed j.id +
        countId st.delayed j.id = 0
      rw [bumpJob_id]
      omega
    · rfl
  · intro st j h
    unfold memOccurrences at h
    show countId (st.waiting ++ [j]) j.id + countId st.active j.id +
      countId st.completed j.id + countId st.failed j.id +
      countId st.delayed j.id = 1
    rw [countId_append]
    have h1 : countId [j] j.id = 1 := by simp [countId]
    omega
  · intro st j msg hw ha hc hf hd h6
    have hcond : ¬ (bumpJob j msg).attempts < maxAttemptsOf (bumpJob j msg) := by
      show ¬ j.attempts + 1 < maxAttemptsOf j
      omega
    have hra := countId_removeFirstById st.active j.id
    have hfc := countId_append_trim st.failed (bumpJob j msg) j.id hf
      (bumpJob_id j msg)
    unfold MemoryQueueService.handleJobFailure
    dsimp only
    rw [if_neg hcond]
    constructor
    · show countId st.waiting j.id +
        countId (removeFirstById st.active (bumpJob j msg).id) j.id +
        countId st.completed j.id +
        countId (if (st.failed ++ [bumpJob j msg]).length > 50
          then (st.failed ++ [bumpJob j msg]).tail
          else st.failed ++ [bumpJob j msg]) j.id +
        countId st.delayed j.id = 1
      rw [bumpJob_id]
      omega
    · exact hfc
  · intro st now initOk ok
    by_cases hp : st.pendingRecovery
    · simp [QueueService.performRecovery, hp]
    · by_cases h0 : localJobCount st.memory = 0
      · by_cases hi : initOk <;>
          simp [QueueService.performRecovery, hp, h0, hi]
      · by_cases hi : initOk <;>
          simp [QueueService.performRecovery, hp, h0, hi]
  · intro st now ok j hp hn hj hok
    obtain ⟨hbull, hmem, _⟩ :=
      performRecovery_success st now ok hp hn
    constructor
    · rw [hmem]
      exact hj
    · rw [hbull]
      exact attemptSubmissions_mem_waiting ok _ st.bull _
        (List.mem_append_left _ (List.mem_append_left _
          (List.mem_map_of_mem recoverWaitingOpts hj))) hok rfl

theorem jobResidenceAfterTransitions_witness :
    (countId memOneActive.waiting "1" = 0 ∧
     countId memOneActive.active "1" = 1 ∧
     countId memOneActive.completed "1" = 0 ∧
     countId memOneActive.failed "1" = 0 ∧
     countId memOneActive.delayed "1" = 0 ∧
     freshJob.attempts + 1 < maxAttemptsOf freshJob) ∧
    memOccurrences
      (MemoryQueueService.handleJobFailure memOneActive freshJob "x").1
      freshJob.id = 0 :=
  ⟨⟨by decide, by decide, by decide, by decide, by decide, by decide⟩,
    (jobResidenceAfterTransitions.1 memOneActive freshJob "x" (by decide)
      (by decide) (by decide) (by decide) (by decide) (by decide)).1⟩

end EmailQueue
